import Mathlib

/-!
Verification of the StahlAnkifier pipeline (src/stahl_ankifier.py and
src/parse_pdf.py) against its specification.

Embedding conventions
=====================

* Python strings are modelled as `String` (operations implemented over
  `String.data : List Char`); the model covers the ASCII behaviour of
  `lower`/`upper`/`title`/`strip`, which is all the pipeline exercises.
* Python dicts (which preserve insertion order and update values in place
  on key collision) are modelled as association lists `List (String × V)`
  together with the order-preserving overwrite `dinsert`.
* HTML trees manipulated through BeautifulSoup are modelled by the
  inductive `Html`; `BeautifulSoup(s, "html.parser")` / `str(soup)` pairs
  are modelled by passing the parsed forest directly and serialising with
  `renderL` (text nodes are rendered verbatim; the pipeline's strings do
  not contain markup metacharacters inside text).
* Functions named after the Python helpers keep their source names
  (`_merge_empty_consecutive` becomes `mergeEmptyConsecutive`, and so on);
  the Python `while changed` loop is realised with fuel `length + 1`,
  which the lemmas below prove sufficient, so the function is total and
  computable by the kernel.
-/

namespace Stahl

/-! ## Python string primitives over `List Char` -/

/-- Python whitespace for `str.strip` and the regex class `\s`. -/
def isPySpace (c : Char) : Bool :=
  c = ' ' || c = '\t' || c = '\n' || c = '\r' || c = '\x0b' || c = '\x0c'

/-- `str.lstrip()` on a character list. -/
def pyLStripL (l : List Char) : List Char := l.dropWhile isPySpace

/-- `str.rstrip()` on a character list. -/
def pyRStripL (l : List Char) : List Char := (l.reverse.dropWhile isPySpace).reverse

/-- `str.strip()` on a character list. -/
def pyStripL (l : List Char) : List Char := pyRStripL (pyLStripL l)

/-- `str.strip()`. -/
def pyStrip (s : String) : String := String.mk (pyStripL s.data)

/-- `str.lower()` (ASCII). -/
def pyLower (s : String) : String := String.mk (s.data.map Char.toLower)

/-- List-of-characters prefix test. -/
def isPrefixL : List Char → List Char → Bool
  | [], _ => true
  | _ :: _, [] => false
  | a :: as, b :: bs => a = b && isPrefixL as bs

/-- Python's substring test `needle in haystack`. -/
def pyInL (needle : List Char) : List Char → Bool
  | [] => needle.isEmpty
  | c :: rest => isPrefixL needle (c :: rest) || pyInL needle rest

/-- Python's substring test `needle in haystack` on `String`. -/
def pyIn (needle haystack : String) : Bool := pyInL needle.data haystack.data

/-- `str.startswith`. -/
def pyStartsWith (s pre : String) : Bool := isPrefixL pre.data s.data

/-- `str.endswith`. -/
def pyEndsWith (s suf : String) : Bool := isPrefixL suf.data.reverse s.data.reverse

/-- `str.replace` when the pattern is empty: Python inserts the
replacement before every character and at the end. -/
def pyReplaceEmptyPat (rep : List Char) : List Char → List Char
  | [] => rep
  | c :: rest => rep ++ c :: pyReplaceEmptyPat rep rest

/-- Fuelled worker for `str.replace` with a non-empty pattern:
left-to-right, non-overlapping. -/
def pyReplaceAux (pat rep : List Char) : Nat → List Char → List Char
  | _, [] => []
  | 0, s => s
  | fuel + 1, c :: rest =>
      if isPrefixL pat (c :: rest) then
        rep ++ pyReplaceAux pat rep fuel (List.drop pat.length (c :: rest))
      else c :: pyReplaceAux pat rep fuel rest

/-- Python `str.replace(pat, rep)`. -/
def pyReplace (s pat rep : String) : String :=
  if pat.data.isEmpty then String.mk (pyReplaceEmptyPat rep.data s.data)
  else String.mk (pyReplaceAux pat.data rep.data s.data.length s.data)

/-- Fuelled worker for `str.split(sep)` with a non-empty separator. -/
def pySplitAux (sep : List Char) : Nat → List Char → List Char → List (List Char)
  | 0, acc, s => [acc.reverse ++ s]
  | _ + 1, acc, [] => [acc.reverse]
  | fuel + 1, acc, c :: rest =>
      if isPrefixL sep (c :: rest) then
        acc.reverse :: pySplitAux sep fuel [] (List.drop sep.length (c :: rest))
      else pySplitAux sep fuel (c :: acc) rest

/-- Python `str.split(sep)` (the separator is never empty in the source). -/
def pySplitOn (s sep : String) : List String :=
  if sep.data.isEmpty then [s]
  else (pySplitAux sep.data s.data.length [] s.data).map String.mk

/-- Python `str.splitlines()` (boundaries `\r\n`, `\r`, `\n`; no final
empty piece). -/
def pySplitlinesAux : List Char → List Char → List (List Char)
  | [], [] => []
  | [], cur => [cur.reverse]
  | '\r' :: '\n' :: rest, cur => cur.reverse :: pySplitlinesAux rest []
  | '\r' :: rest, cur => cur.reverse :: pySplitlinesAux rest []
  | '\n' :: rest, cur => cur.reverse :: pySplitlinesAux rest []
  | c :: rest, cur => pySplitlinesAux rest (c :: cur)

/-- Python `str.splitlines()`. -/
def pySplitlines (s : String) : List String :=
  (pySplitlinesAux s.data []).map String.mk

/-- The part of `l` after the first occurrence of (non-empty) `sep`,
that is `l.split(sep, 1)[1]` guarded by `sep in l`. -/
def afterFirstL (sep : List Char) : List Char → Option (List Char)
  | [] => none
  | c :: rest =>
      if isPrefixL sep (c :: rest) then some (List.drop sep.length (c :: rest))
      else afterFirstL sep rest

/-- `String` version of `afterFirstL`. -/
def afterFirst (sep s : String) : Option String :=
  (afterFirstL sep.data s.data).map String.mk

/-- Python `sep.join(parts)`. -/
def pyJoin (sep : String) : List String → String
  | [] => ""
  | [x] => x
  | x :: rest => x ++ sep ++ pyJoin sep rest

/-- Python `str.isupper()` (ASCII): at least one cased character and no
lowercase cased character. -/
def pyIsUpper (s : String) : Bool :=
  s.data.any (fun c => c.isAlpha) && s.data.all (fun c => !c.isAlpha || c.isUpper)

/-- Worker for Python `str.title()` (ASCII): uppercase a cased character
that follows a non-cased one, lowercase the other cased characters. -/
def pyTitleAux : Bool → List Char → List Char
  | _, [] => []
  | prevCased, c :: rest =>
      if c.isAlpha then
        (if prevCased then c.toLower else c.toUpper) :: pyTitleAux true rest
      else c :: pyTitleAux false rest

/-- Python `str.title()` (ASCII). -/
def pyTitle (s : String) : String := String.mk (pyTitleAux false s.data)

/-- Python truthiness of an optional string (`None` and `""` are falsy). -/
def optTruthy : Option String → Bool
  | none => false
  | some s => !(s = "")

/-! ## HTML forests (the BeautifulSoup document model) -/

/-- A parsed HTML node: a text node, or an element with a tag name, an
ordered attribute list and a list of children. -/
inductive Html where
  | text : String → Html
  | elem : String → List (String × String) → List Html → Html

/-- Serialise an attribute list the way BeautifulSoup's `str()` does. -/
def renderAttrs : List (String × String) → String
  | [] => ""
  | (k, v) :: rest => " " ++ k ++ "=\"" ++ v ++ "\"" ++ renderAttrs rest

mutual

/-- `str(node)`: BeautifulSoup's serialisation (void `br` renders
self-closed, text renders verbatim). -/
def renderH : Html → String
  | .text s => s
  | .elem n a cs =>
      if n = "br" then "<br" ++ renderAttrs a ++ "/>"
      else "<" ++ n ++ renderAttrs a ++ ">" ++ renderL cs ++ "</" ++ n ++ ">"

/-- `str(soup)` for a forest of nodes. -/
def renderL : List Html → String
  | [] => ""
  | h :: t => renderH h ++ renderL t

end

/-- Children of a node (text nodes have none). -/
def childrenOf : Html → List Html
  | .text _ => []
  | .elem _ _ cs => cs

/-- Attribute list of a node. -/
def attrsOf : Html → List (String × String)
  | .text _ => []
  | .elem _ a _ => a

/-- Tag name of a node (text nodes get the empty name). -/
def nameOf : Html → String
  | .text _ => ""
  | .elem n _ _ => n

/-- `tag.get(key, default)`: first binding of `key` in the attribute
list. -/
def attrGet : List (String × String) → String → String → String
  | [], _, dflt => dflt
  | (k, v) :: rest, key, dflt => if k = key then v else attrGet rest key dflt

mutual

/-- `soup.find_all(name)` restricted to one node: the node itself if it
matches, followed by matching descendants in document order. -/
def findAllH (n : String) : Html → List Html
  | .text _ => []
  | .elem m a cs => (if m = n then [Html.elem m a cs] else []) ++ findAllL n cs

/-- `soup.find_all(name)` over a forest, in document order. -/
def findAllL (n : String) : List Html → List Html
  | [] => []
  | h :: t => findAllH n h ++ findAllL n t

end

mutual

/-- First node with tag `n` in preorder, the node itself included. -/
def findFirstH (n : String) : Html → Option Html
  | .text _ => none
  | .elem m a cs => if m = n then some (.elem m a cs) else findFirstL n cs

/-- `soup.find(name)` over a forest: first match in document order. -/
def findFirstL (n : String) : List Html → Option Html
  | [] => none
  | h :: t =>
      match findFirstH n h with
      | some r => some r
      | none => findFirstL n t

end

mutual

/-- Remove (`decompose`) the first node with tag `n` strictly inside the
given node, reporting whether one was found. -/
def removeFirstH (n : String) : Html → Html × Bool
  | .text s => (.text s, false)
  | .elem m a cs =>
      let r := removeFirstL n cs
      (.elem m a r.1, r.2)

/-- Remove the first node with tag `n` from a forest in document order. -/
def removeFirstL (n : String) : List Html → List Html × Bool
  | [] => ([], false)
  | .text s :: t =>
      let r := removeFirstL n t
      (.text s :: r.1, r.2)
  | .elem m a cs :: t =>
      if m = n then (t, true)
      else
        let rc := removeFirstH n (.elem m a cs)
        if rc.2 then (rc.1 :: t, true)
        else
          let rt := removeFirstL n t
          (.elem m a cs :: rt.1, rt.2)

end

mutual

/-- `node.get_text(strip=True)`: concatenation of the stripped text
fragments in document order. -/
def getTextH : Html → String
  | .text s => pyStrip s
  | .elem _ _ cs => getTextL cs

/-- `get_text(strip=True)` over a forest. -/
def getTextL : List Html → String
  | [] => ""
  | h :: t => getTextH h ++ getTextL t

end

/-! ## Content normalisation helpers of `stahl_ankifier.py` -/

/-- The whitelist of `_clean_html_keep_formatting`. -/
def allowedTags : List String :=
  ["b", "strong", "i", "em", "u", "a", "br", "p", "ul", "ol", "li"]

mutual

/-- `_clean_html_keep_formatting` on one node: unwrap every element whose
tag is not allowed (keeping its children) and delete the `style`
attribute of the surviving elements.  The source performs the unwrap pass
and the attribute pass separately over `find_all()`; the net effect on
the tree is this single recursion. -/
def cleanKeepFormattingH : Html → List Html
  | .text s => [.text s]
  | .elem n a cs =>
      let cs' := cleanKeepFormattingL cs
      if allowedTags.contains n then
        [.elem n (a.filter fun kv => !(kv.1 = "style")) cs']
      else cs'

/-- `_clean_html_keep_formatting` over a forest. -/
def cleanKeepFormattingL : List Html → List Html
  | [] => []
  | h :: t => cleanKeepFormattingH h ++ cleanKeepFormattingL t

end

mutual

/-- `_remove_paragraph_tags` on one node: every `p` element gets a `br`
appended to its content and is then unwrapped; other elements keep their
shape.  Nested `p` elements are processed as well, as `find_all("p")`
collects them all. -/
def removeParagraphsH : Html → List Html
  | .text s => [.text s]
  | .elem n a cs =>
      let cs' := removeParagraphsL cs
      if n = "p" then cs' ++ [Html.elem "br" [] []] else [.elem n a cs']

/-- `_remove_paragraph_tags` over a forest. -/
def removeParagraphsL : List Html → List Html
  | [] => []
  | h :: t => removeParagraphsH h ++ removeParagraphsL t

end

/-- Effect of the final `str(soup).strip()` of `_remove_paragraph_tags`
on the leading edge of a forest: only leading text can be stripped,
since serialised elements start with a markup character. -/
def dropLeadWS : List Html → List Html
  | .text s :: rest =>
      let s' := String.mk (pyLStripL s.data)
      if s' = "" then dropLeadWS rest else .text s' :: rest
  | f => f

/-- Trailing-edge counterpart of `dropLeadWS`. -/
def dropTrailWS : List Html → List Html
  | [] => []
  | x :: rest =>
      match dropTrailWS rest with
      | [] =>
          match x with
          | .text s =>
              let s' := String.mk (pyRStripL s.data)
              if s' = "" then [] else [.text s']
          | e => [e]
      | r => x :: r

/-- Forest-level counterpart of `str.strip()` applied to a serialised
forest. -/
def pyStripForest (f : List Html) : List Html := dropTrailWS (dropLeadWS f)

/-- `_remove_paragraph_tags` including its final `.strip()`, at forest
level. -/
def removeParagraphTags (f : List Html) : List Html :=
  pyStripForest (removeParagraphsL f)

/-- Grouping loop of `_merge_bullet_paragraphs`: a paragraph whose
stripped text starts with the bullet glyph opens a new group, any other
paragraph joins the current group. -/
def bulletGroups (ps : List Html) : List (List Html) :=
  let st := ps.foldl
    (fun (st : List (List Html) × List Html) p =>
      if pyStartsWith (getTextH p) "•" then
        (if st.2.isEmpty then st.1 else st.1 ++ [st.2], [p])
      else (st.1, st.2 ++ [p]))
    ([], [])
  if st.2.isEmpty then st.1 else st.1 ++ [st.2]

/-- Merging step of `_merge_bullet_paragraphs`: a single-paragraph group
is kept verbatim (`str(group[0])`), a longer group becomes a fresh
attribute-less paragraph holding the space-joined stripped texts. -/
def mergeGroup : List Html → Html
  | [p] => p
  | g => Html.elem "p" [] [Html.text (pyJoin " " (g.map getTextH))]

/-- `_merge_bullet_paragraphs` at forest level: with no paragraphs the
input is returned unchanged, otherwise the output consists exactly of
the merged paragraph groups (any content outside `p` elements is
dropped, as in the source's final `"".join(merged_paragraphs)`). -/
def mergeBulletParagraphs (f : List Html) : List Html :=
  let ps := findAllL "p" f
  if ps.isEmpty then f else (bulletGroups ps).map mergeGroup

/-! ## The Empty-Header Merger (`_merge_empty_consecutive`,
`_merge_empty_headers`) -/

section Merger

variable {V : Type}

/-- Keys of an association list, in order. -/
def keysOf (d : List (String × V)) : List String := d.map Prod.fst

/-- Python dict insertion `d[k] = v`: overwrite the value in place if the
key is present, otherwise append the binding at the end. -/
def dinsert (k : String) (v : V) : List (String × V) → List (String × V)
  | [] => [(k, v)]
  | (k', v') :: rest => if k' = k then (k', v) :: rest else (k', v') :: dinsert k v rest

/-- One full pass of the inner `while i < len(keys)` loop of
`_merge_empty_consecutive`: scan the entries left to right, and whenever
the current entry is empty and a next entry exists, insert one merged
entry (keys joined with a single space, the next entry's value) and skip
both; the Boolean accumulates the `changed` flag. -/
def mergeGo (e : V → Bool) :
    List (String × V) → List (String × V) → Bool → List (String × V) × Bool
  | [], acc, c => (acc, c)
  | [(k, v)], acc, c => (dinsert k v acc, c)
  | (k, v) :: (k', v') :: rest, acc, c =>
      if e v then mergeGo e rest (dinsert (k ++ " " ++ k') v' acc) true
      else mergeGo e ((k', v') :: rest) (dinsert k v acc) c

/-- The outer `while changed` loop, realised with fuel; the lemmas below
show fuel `length + 1` always reaches the pass that reports no change,
so `mergeEmptyConsecutive` computes the same fixed point as the source
loop. -/
def mergeLoop (e : V → Bool) : Nat → List (String × V) → List (String × V)
  | 0, l => l
  | fuel + 1, l =>
      match mergeGo e l [] false with
      | (l', true) => mergeLoop e fuel l'
      | (l', false) => l'

/-- `_merge_empty_consecutive(d, is_empty)`. -/
def mergeEmptyConsecutive (e : V → Bool) (l : List (String × V)) : List (String × V) :=
  mergeLoop e (l.length + 1) l

/-- Number of merges a single pass performs; the pass's decisions do not
depend on the accumulator, so this is a function of the scanned list
alone. -/
def passCount (e : V → Bool) : List (String × V) → Nat
  | [] => 0
  | [(_, _)] => 0
  | (_, v) :: (k', v') :: rest =>
      if e v then 1 + passCount e rest else passCount e ((k', v') :: rest)

/-- Instrumented loop returning the result together with the total
number of merges performed across all passes. -/
def mergeLoopCount (e : V → Bool) : Nat → List (String × V) → List (String × V) × Nat
  | 0, l => (l, 0)
  | fuel + 1, l =>
      match mergeGo e l [] false with
      | (l', true) =>
          let r := mergeLoopCount e fuel l'
          (r.1, passCount e l + r.2)
      | (l', false) => (l', passCount e l)

end Merger

/-- Emptiness of an H2 entry (`lambda v: not v`). -/
def h2Empty (v : List String) : Bool := v.isEmpty

/-- Emptiness of an H1 entry
(`lambda v: not v or all(not content for content in v.values())`). -/
def h1Empty (v : List (String × List String)) : Bool :=
  v.isEmpty || v.all fun p => p.2.isEmpty

/-- The per-drug section tree: H1 header text to H2 header text to the
ordered list of serialised content fragments. -/
abbrev DrugTree := List (String × List (String × List String))

/-- `_merge_empty_headers`: merge empty H2 entries within each H1
(`h1_cleaned`), then merge empty H1 entries. -/
def mergeEmptyHeaders (d : DrugTree) : DrugTree :=
  mergeEmptyConsecutive h1Empty (d.map fun p => (p.1, mergeEmptyConsecutive h2Empty p.2))

/-! ## `parse_drug_pages`: the stateful block scan

The scan is identical in `src/stahl_ankifier.py` (lines 354-401) and
`src/parse_pdf.py` (lines 225-272); one model covers both. -/

/-- Update the value stored at the first occurrence of key `k` (a no-op
when the key is absent; the Python code only reaches the update when the
key is present). -/
def updAt {A : Type} (k : String) (f : A → A) : List (String × A) → List (String × A)
  | [] => []
  | (k', v) :: rest => if k' = k then (k', f v) :: rest else (k', v) :: updAt k f rest

/-- The source's "if current_h1 not in drug_dict" guard: ensure the H1
key exists, mapped to an empty topic dict. -/
def ensureH1 (d : DrugTree) (h1 : String) : DrugTree :=
  if (keysOf d).contains h1 then d else d ++ [(h1, [])]

/-- `if current_h2 not in drug_dict[current_h1]: ... = []`. -/
def ensureH2 (d : DrugTree) (h1 h2 : String) : DrugTree :=
  updAt h1 (fun h2d => if (keysOf h2d).contains h2 then h2d else h2d ++ [(h2, [])]) d

/-- `drug_dict[current_h1][current_h2].append(s)`. -/
def appendContent (d : DrugTree) (h1 h2 s : String) : DrugTree :=
  updAt h1 (fun h2d => updAt h2 (fun l => l ++ [s]) h2d) d

/-- Scanner state: current H1 header, current H2 header, tree so far. -/
abbrev ScanState := Option String × Option String × DrugTree

/-- Processing of one `<p>` block by the loop body of
`parse_drug_pages`: white primary span opens an H1; a 10pt span plus a
bold descendant is an H2 candidate, opening a topic only when the
stripped bold text has length greater than one (any trailing content of
the block, with the bold tag decomposed, becomes the topic's first
fragment); every other block is content for the currently open pair. -/
def pdpStep (st : ScanState) (p : Html) : ScanState :=
  match findFirstL "span" (childrenOf p) with
  | none => st
  | some span =>
      let style := attrGet (attrsOf span) "style" ""
      if pyIn "color:#ffffff" (pyLower style) then
        let h1 := getTextH span
        (some h1, none, ensureH1 st.2.2 h1)
      else
        match findFirstL "b" (childrenOf p) with
        | some b =>
            if pyIn "font-size:10.0pt" style then
              let h2 := getTextH b
              if !(h2 = "") && h2.length > 1 then
                match st.1 with
                | some h1 =>
                    if !(h1 = "") then
                      let d1 := ensureH2 st.2.2 h1 h2
                      let pc := Html.elem (nameOf p) (attrsOf p)
                        (removeFirstL "b" (childrenOf p)).1
                      let rem := getTextH pc
                      let d2 := if !(rem = "") then appendContent d1 h1 h2 (renderH pc)
                        else d1
                      (st.1, some h2, d2)
                    else (st.1, some h2, st.2.2)
                | none => (st.1, some h2, st.2.2)
              else st
            else
              if optTruthy st.1 && optTruthy st.2.1 then
                match st.1, st.2.1 with
                | some h1, some h2 => (st.1, st.2.1, appendContent st.2.2 h1 h2 (renderH p))
                | _, _ => st
              else st
        | none =>
            if optTruthy st.1 && optTruthy st.2.1 then
              match st.1, st.2.1 with
              | some h1, some h2 => (st.1, st.2.1, appendContent st.2.2 h1 h2 (renderH p))
              | _, _ => st
            else st

/-- `parse_drug_pages(combined_soup)`: scan all `<p>` blocks in document
order, then post-process with `_merge_empty_headers`. -/
def parseDrugPages (f : List Html) : DrugTree :=
  mergeEmptyHeaders ((findAllL "p" f).foldl pdpStep (none, none, [])).2.2

/-! ## Outline-entry identifier extraction -/

/-- The drug-name extraction of `src/stahl_ankifier.py` (lines 531-567):
an entry is a drug start only when `_pp_` occurs in the title, the part
after it splits into at least three underscore tokens, and the joined
tokens after the first two are non-empty and entirely uppercase once the
underscores are removed. -/
def extractDrugStahl (title : String) : Option String :=
  match afterFirst "_pp_" title with
  | none => none
  | some afterPp =>
      let parts := pySplitOn afterPp "_"
      if parts.length ≥ 3 then
        let drug := pyJoin "_" (parts.drop 2)
        if !(drug = "") && pyIsUpper (pyReplace drug "_" "") then some drug else none
      else none

/-- The drug-name extraction of `src/parse_pdf.py` (lines 370-395): the
title's last underscore-delimited segment, accepted when non-empty and
entirely uppercase. -/
def extractDrugParsePdf (title : String) : Option String :=
  match (pySplitOn title "_").getLast? with
  | none => none
  | some lastSegment =>
      if !(lastSegment = "") && pyIsUpper lastSegment then some lastSegment else none

/-- Modelled from the spec: rule (b) alone, "the title's trailing
underscore-delimited token, accepted only if it is entirely
uppercase". -/
def specPatternB (title : String) : Option String :=
  match (pySplitOn title "_").getLast? with
  | none => none
  | some lastTok => if !(lastTok = "") && pyIsUpper lastTok then some lastTok else none

/-- Modelled from the spec: rule (a) alone, "an explicit
`pp_<start>_<end>_<NAME>` pattern anywhere in the title, taking all
tokens after the two page numbers, joined, as the identifier, requiring
the joined identifier to be entirely uppercase
(case-insensitive-to-underscore)". -/
def specPatternA (title : String) : Option String :=
  match afterFirst "_pp_" title with
  | none => none
  | some afterPp =>
      match (pySplitOn afterPp "_").drop 2 with
      | [] => none
      | nameToks =>
          let name := pyJoin "_" nameToks
          if !(name = "") && pyIsUpper (pyReplace name "_" "") then some name else none

/-- Modelled from the spec: the claimed two-stage identifier extraction,
rule (a) first and rule (b) as fallback; no function in the repository
implements this cascade, which claim C5 asserts. -/
def specExtractIdentifier (title : String) : Option String :=
  match specPatternA title with
  | some name => some name
  | none => specPatternB title

/-! ## Card synthesis (`parse_pdf` in `stahl_ankifier.py`, lines 636-698)

At this boundary the source serialises each fragment with `str(p)` and
re-parses the concatenation; the model carries the parsed forests
directly, so a topic's content is a `List (List Html)` and serialisation
points use `renderL`. -/

/-- One flashcard record; the hierarchy tag is
`Stahl::<drug>::<section>`, all lowercase with spaces replaced by
underscores. -/
structure CardRecord where
  drug : String
  sectionTitle : String
  question : String
  answer : String
  tags : List String

/-- Per-drug content: drug name to H1 header to H2 header to content
fragments. -/
abbrev DrugContent := List (String × List (String × List (String × List (List Html))))

/-- The question is the H2 header with `?` appended when absent. -/
def mkQuestion (h2 : String) : String := if pyEndsWith h2 "?" then h2 else h2 ++ "?"

/-- `combined_html` plus the bullet-continuation merge, which is skipped
for the "suggested reading" topic (case-insensitively). -/
def mergedContent (h2 : String) (cs : List (List Html)) : List Html :=
  let combined := cs.flatten
  if pyLower h2 = "suggested reading" then combined else mergeBulletParagraphs combined

/-- The forest behind the final `answer_text` string: bullet merge, then
`_clean_html_keep_formatting`, then `_remove_paragraph_tags` (with its
trailing `.strip()`).  This is what the cloze stage re-parses. -/
def answerSoup (h2 : String) (cs : List (List Html)) : List Html :=
  removeParagraphTags (cleanKeepFormattingL (mergedContent h2 cs))

/-- The card's `Answer` field (the serialisation of `answerSoup`). -/
def answerString (h2 : String) (cs : List (List Html)) : String :=
  pyStrip (renderL (removeParagraphsL (cleanKeepFormattingL (mergedContent h2 cs))))

/-- One card for a (drug, H1, H2) triple. -/
def mkCard (drug h1 h2 : String) (cs : List (List Html)) : CardRecord :=
  { drug := pyTitle (pyReplace drug "_" " ")
    sectionTitle := pyTitle h1
    question := mkQuestion h2
    answer := answerString h2 cs
    tags := ["Stahl::" ++ pyReplace (pyLower drug) " " "_" ++ "::"
      ++ pyReplace (pyLower h1) " " "_"] }

/-- Innermost card loop: one card per topic header, in tree order. -/
def mkCardsH2 (drug h1 : String) : List (String × List (List Html)) → List CardRecord
  | [] => []
  | (h2, cs) :: rest => mkCard drug h1 h2 cs :: mkCardsH2 drug h1 rest

/-- Middle card loop over the H1 headers of one drug. -/
def mkCardsH1 (drug : String) : List (String × List (String × List (List Html))) → List CardRecord
  | [] => []
  | (h1, h2d) :: rest => mkCardsH2 drug h1 h2d ++ mkCardsH1 drug rest

/-- Outer card loop over all drugs (the `cards` list of the source). -/
def mkCards : DrugContent → List CardRecord
  | [] => []
  | (drug, t) :: rest => mkCardsH1 drug t ++ mkCards rest

/-- Total number of topic headers across all entries of the tree. -/
def totalTopicHeaders (dc : DrugContent) : Nat :=
  (dc.map fun p => (p.2.map fun q => q.2.length).sum).sum

/-! ## Cloze answer synthesis (`stahl_ankifier.py`, lines 842-918) -/

/-- The three cloze card formats. -/
inductive ClozeFormat where
  | singlecloze
  | onecloze
  | multicloze
deriving DecidableEq

/-- The four literal `str.replace` cleanups applied to `answer_html`
before cloze wrapping. -/
def cleanupReplaces (s : String) : String :=
  pyReplace (pyReplace (pyReplace (pyReplace s "<b><b/>" "") "<i><i/>" "")
    "<b/><b>" "") "<i/><i>" ""

/-- The `<br/>`-split / `splitlines` / whole-string fallback cascade
shared by `onecloze` and `multicloze`; `multi` selects the counter
behaviour of `multicloze` (the opening marker after unit `ibr` uses
`str(ibr + 1)`), while `onecloze` always reopens with `c1`. -/
def clozeCascade (multi : Bool) (s : String) : String :=
  if pyIn "<br/>" s then
    if multi then
      let st := (pySplitOn s "<br/>").foldl
        (fun (p : String × Nat) br =>
          (p.1 ++ br ++ "\x7d\x7d<br/>\x7b\x7bc" ++ toString (p.2 + 1) ++ "::", p.2 + 1))
        ("\x7b\x7bc1::", 0)
      st.1 ++ "\x7d\x7d"
    else
      ((pySplitOn s "<br/>").foldl
        (fun acc br => acc ++ br ++ "\x7d\x7d<br/>\x7b\x7bc1::") "\x7b\x7bc1::") ++ "\x7d\x7d"
  else if (pySplitlines (pyStrip s)).length > 1 then
    if multi then
      let st := (pySplitlines s).foldl
        (fun (p : String × Nat) br =>
          (p.1 ++ br ++ "\x7d\x7d<br/>\x7b\x7bc" ++ toString (p.2 + 1) ++ "::", p.2 + 1))
        ("\x7b\x7bc1::", 0)
      st.1 ++ "\x7d\x7d"
    else
      ((pySplitlines s).foldl
        (fun acc br => acc ++ br ++ "\x7d\x7d<br/>\x7b\x7bc1::") "\x7b\x7bc1::") ++ "\x7d\x7d"
  else "\x7b\x7bc1::" ++ s ++ "\x7d\x7d"

/-- Match the empty-cloze regex (double open brace, `c`, digits, two
colons, whitespace, double close brace) at the head of the character
list, returning the remainder on success. -/
def matchEmptyCloze (s : List Char) : Option (List Char) :=
  match s with
  | '\x7b' :: '\x7b' :: 'c' :: rest =>
      match rest.dropWhile Char.isDigit with
      | ':' :: ':' :: rest2 =>
          match rest2.dropWhile isPySpace with
          | '\x7d' :: '\x7d' :: r => some r
          | _ => none
      | _ => none
  | _ => none

/-- Left-to-right, non-overlapping removal of empty cloze spans, as
performed by the source's first `re.sub`. -/
def subEmptyClozesAux : Nat → List Char → List Char
  | 0, s => s
  | _ + 1, [] => []
  | fuel + 1, c :: rest =>
      match matchEmptyCloze (c :: rest) with
      | some r => subEmptyClozesAux fuel r
      | none => c :: subEmptyClozesAux fuel rest

/-- Removal of all empty cloze spans from a string. -/
def subEmptyClozes (s : String) : String :=
  String.mk (subEmptyClozesAux s.data.length s.data)

/-- Match one `<br\s*/?>` at the head of a reversed character list. -/
def matchBrRev (s : List Char) : Option (List Char) :=
  match s with
  | '>' :: rest =>
      let rest1 := match rest with
        | '/' :: rr => rr
        | rr => rr
      match rest1.dropWhile isPySpace with
      | 'r' :: 'b' :: '<' :: r2 => some r2
      | _ => none
  | _ => none

/-- Strip the maximal run of `<br\s*/?>` occurrences anchored at the end
of the (reversed) list. -/
def stripBrRevAux : Nat → List Char → List Char
  | 0, r => r
  | fuel + 1, r =>
      match matchBrRev r with
      | some r' => stripBrRevAux fuel r'
      | none => r

/-- `re.sub(r"(<br\s*/?>)+$", "", s)`. -/
def stripTrailingBrs (s : String) : String :=
  String.mk (stripBrRevAux s.data.length s.data.reverse).reverse

/-- The cloze post-processing: bullet glyphs removed, empty cloze spans
removed (then `strip`), trailing line-break tags removed. -/
def clozePost (s : String) : String :=
  let s1 := pyReplace s "• " ""
  let s2 := pyReplace s1 "•" ""
  let s3 := pyStrip (subEmptyClozes s2)
  stripTrailingBrs s3

/-- Post-process a candidate cloze answer and enforce the marker
invariant: the two `assert` statements of the source become `Except`
errors carrying the source's messages. -/
def clozeFinish (original cand : String) : Except String String :=
  let c := clozePost cand
  if pyIn "\x7b\x7bc" c then
    if pyIn "\x7d\x7d" c then .ok c
    else .error ("Answer is missing end of cloze: " ++ c ++ "\n" ++ original)
  else .error ("Answer is missing start of cloze: " ++ c ++ "\n" ++ original)

/-- Python `str(p)[3:-4]`: drop the first three and last four
characters. -/
def stripPTagEnds (s : String) : String :=
  let l := s.data.drop 3
  String.mk (l.take (l.length - 4))

mutual

/-- The `onecloze` paragraph branch: each paragraph's serialised content
(with the literal `<p>`/`</p>` sliced off) is replaced by a single text
child wrapped in a `c1` cloze span.  Nested paragraphs disappear with
their parent's serialisation, matching the net effect of the source's
`p.string` assignments over the `find_all("p")` snapshot. -/
def oneClozeParaH : Html → Html
  | .text s => .text s
  | .elem n a cs =>
      if n = "p" then
        .elem n a [.text ("\x7b\x7bc1::" ++ stripPTagEnds (renderH (.elem n a cs)) ++ "\x7d\x7d")]
      else .elem n a (oneClozeParaL cs)

/-- Forest version of `oneClozeParaH`. -/
def oneClozeParaL : List Html → List Html
  | [] => []
  | h :: t => oneClozeParaH h :: oneClozeParaL t

end

/-- The cloze branch of the note-building loop: cleanup replaces, format
dispatch (`singlecloze` wraps the whole answer; `onecloze` and
`multicloze` use the paragraph branch when the parsed answer still
contains `p` elements and the fallback cascade otherwise), bullet and
empty-span removal, and the final marker assertions.  The `multicloze`
paragraph branch concatenates the integer `idx` to a string, which
raises `TypeError` in Python; it is modelled as an error. -/
def clozeAnswer (fmt : ClozeFormat) (soup : List Html) : Except String String :=
  let original := renderL soup
  let s := cleanupReplaces original
  match fmt with
  | .singlecloze => clozeFinish original ("\x7b\x7bc1::<br/>" ++ s ++ "<br/>\x7d\x7d")
  | .onecloze =>
      if (findAllL "p" soup).isEmpty then clozeFinish original (clozeCascade false s)
      else clozeFinish original (renderL (oneClozeParaL soup))
  | .multicloze =>
      if (findAllL "p" soup).isEmpty then clozeFinish original (clozeCascade true s)
      else .error "TypeError: can only concatenate str (not int) to str"

/-! ## Concrete blocks used by witnesses and counterexamples -/

/-- A white-on-colour banner block: a major (H1) header. -/
def pH1Block : Html :=
  .elem "p" [] [.elem "span" [("style", "color:#ffffff")] [.text "PHARMACOLOGY"]]

/-- A regular topic (H2) header block. -/
def pH2Block : Html :=
  .elem "p" []
    [.elem "span" [("style", "font-size:10.0pt")] [.elem "b" [] [.text "Mechanism of action"]]]

/-- A degenerate topic-header candidate: 10pt primary span, bold run
present, but the stripped bold text has length one. -/
def pDegBlock : Html :=
  .elem "p" []
    [.elem "span" [("style", "font-size:10.0pt")]
      [.elem "b" [] [.text "B"], .text " trailing words"]]

/-! # Theorems -/

/-! ## Lemmas about `dinsert` -/

theorem dinsert_length_le {V : Type} (k : String) (v : V) (a : List (String × V)) :
    (dinsert k v a).length ≤ a.length + 1 := by
  induction a with
  | nil => simp [dinsert]
  | cons p rest ih =>
      obtain ⟨k', v'⟩ := p
      simp only [dinsert]
      split
      · simp
      · simpa using Nat.succ_le_succ ih

theorem dinsert_length_ge {V : Type} (k : String) (v : V) (a : List (String × V)) :
    a.length ≤ (dinsert k v a).length := by
  induction a with
  | nil => simp [dinsert]
  | cons p rest ih =>
      obtain ⟨k', v'⟩ := p
      simp only [dinsert]
      split
      · simp
      · simpa using Nat.succ_le_succ ih

theorem dinsert_length_pos {V : Type} (k : String) (v : V) (a : List (String × V)) :
    1 ≤ (dinsert k v a).length := by
  induction a with
  | nil => simp [dinsert]
  | cons p rest ih =>
      obtain ⟨k', v'⟩ := p
      simp only [dinsert]
      split <;> simp

theorem dinsert_of_not_mem {V : Type} {k : String} (v : V) {a : List (String × V)}
    (h : k ∉ keysOf a) : dinsert k v a = a ++ [(k, v)] := by
  induction a with
  | nil => simp [dinsert]
  | cons p rest ih =>
      obtain ⟨k', v'⟩ := p
      simp only [keysOf, List.map_cons, List.mem_cons] at h
      push_neg at h
      simp only [dinsert, if_neg (Ne.symm h.1)]
      rw [ih h.2]
      simp

theorem keysOf_dinsert_of_mem {V : Type} {k : String} (v : V) {a : List (String × V)}
    (h : k ∈ keysOf a) : keysOf (dinsert k v a) = keysOf a := by
  induction a with
  | nil => simp [keysOf] at h
  | cons p rest ih =>
      obtain ⟨k', v'⟩ := p
      by_cases hk : k' = k
      · simp [dinsert, hk, keysOf]
      · simp only [keysOf, List.map_cons, List.mem_cons] at h
        rcases h with h | h
        · exact absurd h.symm hk
        · have hr := ih h
          simp only [keysOf] at hr
          simp only [dinsert, if_neg hk, keysOf, List.map_cons, hr]

theorem keysOf_dinsert_nodup {V : Type} (k : String) (v : V) (a : List (String × V))
    (h : (keysOf a).Nodup) : (keysOf (dinsert k v a)).Nodup := by
  by_cases hm : k ∈ keysOf a
  · rw [keysOf_dinsert_of_mem v hm]; exact h
  · rw [dinsert_of_not_mem v hm]
    simp only [keysOf, List.map_append, List.map_cons, List.map_nil]
    simp only [keysOf] at h hm
    simp [List.nodup_append, h, hm]

theorem snd_mem_dinsert {V : Type} {k : String} {v : V} {a : List (String × V)}
    {q : String × V} (h : q ∈ dinsert k v a) : q.2 = v ∨ q.2 ∈ a.map Prod.snd := by
  induction a with
  | nil => simp [dinsert] at h; simp [h]
  | cons p rest ih =>
      obtain ⟨k', v'⟩ := p
      simp only [dinsert] at h
      split at h
      · rcases List.mem_cons.mp h with h | h
        · left; rw [h]
        · right
          exact List.mem_map_of_mem Prod.snd (List.mem_cons_of_mem _ h)
      · rcases List.mem_cons.mp h with h | h
        · right; rw [h]; simp
        · rcases ih h with h | h
          · exact Or.inl h
          · right
            simp only [List.map_cons, List.mem_cons]
            exact Or.inr h

/-! ## Lemmas about one merging pass (`mergeGo`) -/

theorem snd_map_dinsert {V : Type} {k : String} {v : V} {a : List (String × V)} {x : V}
    (h : x ∈ (dinsert k v a).map Prod.snd) : x = v ∨ x ∈ a.map Prod.snd := by
  rcases List.mem_map.mp h with ⟨q, hq, rfl⟩
  exact snd_mem_dinsert hq

theorem mergeGo_flag {V : Type} (e : V → Bool) (l acc : List (String × V)) (c : Bool) :
    (mergeGo e l acc c).2 = (c || decide (0 < passCount e l)) := by
  induction l, acc, c using mergeGo.induct e with
  | case1 acc c => simp [mergeGo, passCount]
  | case2 k v acc c => simp [mergeGo, passCount]
  | case3 k v k' v' rest acc c hv ih => simp [mergeGo, passCount, hv, ih]
  | case4 k v k' v' rest acc c hv ih => simp [mergeGo, passCount, hv, ih]

theorem mergeGo_length {V : Type} (e : V → Bool) (l acc : List (String × V)) (c : Bool) :
    ((mergeGo e l acc c).1).length + passCount e l ≤ acc.length + l.length := by
  induction l, acc, c using mergeGo.induct e with
  | case1 acc c => simp [mergeGo, passCount]
  | case2 k v acc c =>
      simpa [mergeGo, passCount] using dinsert_length_le k v acc
  | case3 k v k' v' rest acc c hv ih =>
      have hd := dinsert_length_le (k ++ " " ++ k') v' acc
      simp only [mergeGo, passCount, hv, if_true, List.length_cons] at ih ⊢
      omega
  | case4 k v k' v' rest acc c hv ih =>
      have hd := dinsert_length_le k v acc
      simp only [mergeGo, passCount, hv, if_false, Bool.false_eq_true,
        List.length_cons] at ih ⊢
      omega

theorem mergeGo_length_ge {V : Type} (e : V → Bool) (l acc : List (String × V)) (c : Bool) :
    acc.length ≤ ((mergeGo e l acc c).1).length := by
  induction l, acc, c using mergeGo.induct e with
  | case1 acc c => simp [mergeGo]
  | case2 k v acc c => simpa [mergeGo] using dinsert_length_ge k v acc
  | case3 k v k' v' rest acc c hv ih =>
      have hd := dinsert_length_ge (k ++ " " ++ k') v' acc
      simp only [mergeGo, hv, if_true] at ih ⊢
      omega
  | case4 k v k' v' rest acc c hv ih =>
      have hd := dinsert_length_ge k v acc
      simp only [mergeGo, hv, if_false, Bool.false_eq_true] at ih ⊢
      omega

theorem mergeGo_length_pos {V : Type} (e : V → Bool) (l acc : List (String × V)) (c : Bool)
    (h : l ≠ []) : 1 ≤ ((mergeGo e l acc c).1).length := by
  match l with
  | [] => exact absurd rfl h
  | [(k, v)] => simpa [mergeGo] using dinsert_length_pos k v acc
  | (k, v) :: (k', v') :: rest =>
      simp only [mergeGo]
      split
      · have h1 := dinsert_length_pos (k ++ " " ++ k') v' acc
        have h2 := mergeGo_length_ge e rest (dinsert (k ++ " " ++ k') v' acc) true
        omega
      · have h1 := dinsert_length_pos k v acc
        have h2 := mergeGo_length_ge e ((k', v') :: rest) (dinsert k v acc) c
        omega

theorem mergeGo_keys_nodup {V : Type} (e : V → Bool) (l acc : List (String × V)) (c : Bool) :
    (keysOf acc).Nodup → (keysOf ((mergeGo e l acc c).1)).Nodup := by
  induction l, acc, c using mergeGo.induct e with
  | case1 acc c => intro h; simpa [mergeGo] using h
  | case2 k v acc c => intro h; simpa [mergeGo] using keysOf_dinsert_nodup k v acc h
  | case3 k v k' v' rest acc c hv ih =>
      intro h
      simp only [mergeGo, hv, if_true]
      exact ih (keysOf_dinsert_nodup _ _ _ h)
  | case4 k v k' v' rest acc c hv ih =>
      intro h
      simp only [mergeGo, hv, if_false, Bool.false_eq_true]
      exact ih (keysOf_dinsert_nodup _ _ _ h)

theorem mergeGo_snd_mem {V : Type} (e : V → Bool) (l acc : List (String × V)) (c : Bool)
    (q : String × V) :
    q ∈ (mergeGo e l acc c).1 → q.2 ∈ acc.map Prod.snd ∨ q.2 ∈ l.map Prod.snd := by
  induction l, acc, c using mergeGo.induct e with
  | case1 acc c =>
      intro h
      simp only [mergeGo] at h
      exact Or.inl (List.mem_map_of_mem Prod.snd h)
  | case2 k v acc c =>
      intro h
      simp only [mergeGo] at h
      rcases snd_mem_dinsert h with h | h
      · right; simp [h]
      · left; exact h
  | case3 k v k' v' rest acc c hv ih =>
      intro h
      simp only [mergeGo, hv, if_true] at h
      rcases ih h with hm | hm
      · rcases snd_map_dinsert hm with hm | hm
        · right; simp [hm]
        · left; exact hm
      · right
        simp only [List.map_cons, List.mem_cons]
        exact Or.inr (Or.inr hm)
  | case4 k v k' v' rest acc c hv ih =>
      intro h
      simp only [mergeGo, hv, if_false, Bool.false_eq_true] at h
      rcases ih h with hm | hm
      · rcases snd_map_dinsert hm with hm | hm
        · right; simp [hm]
        · left; exact hm
      · right
        simp only [List.map_cons, List.mem_cons] at hm ⊢
        exact Or.inr hm

theorem mergeGo_no_change {V : Type} (e : V → Bool) :
    ∀ (l acc : List (String × V)), (keysOf (acc ++ l)).Nodup →
      (mergeGo e l acc false).2 = false → (mergeGo e l acc false).1 = acc ++ l
  | [], acc => by
      intro _ _
      simp [mergeGo]
  | [(k, v)], acc => by
      intro hn _
      have hk : k ∉ keysOf acc := by
        simp only [keysOf, List.map_append, List.nodup_append] at hn
        intro hmem
        exact hn.2.2 hmem (by simp)
      simp only [mergeGo]
      rw [dinsert_of_not_mem v hk]
  | (k, v) :: (k', v') :: rest, acc => by
      intro hn h
      by_cases hv : e v = true
      · exfalso
        have hflag := mergeGo_flag e ((k, v) :: (k', v') :: rest) acc false
        rw [h] at hflag
        simp [passCount, hv] at hflag
      · have hk : k ∉ keysOf acc := by
          simp only [keysOf, List.map_append, List.nodup_append] at hn
          intro hmem
          exact hn.2.2 hmem (by simp)
        have hd : dinsert k v acc = acc ++ [(k, v)] := dinsert_of_not_mem v hk
        have hv' : e v = false := by simpa using hv
        have hstep :
            mergeGo e ((k, v) :: (k', v') :: rest) acc false
              = mergeGo e ((k', v') :: rest) (dinsert k v acc) false := by
          simp [mergeGo, hv']
        have hn' : (keysOf ((acc ++ [(k, v)]) ++ ((k', v') :: rest))).Nodup := by
          rw [List.append_assoc]
          simpa using hn
        have h' : (mergeGo e ((k', v') :: rest) (dinsert k v acc) false).2 = false := by
          rw [← hstep]; exact h
        rw [hstep, hd]
        rw [mergeGo_no_change e ((k', v') :: rest) (acc ++ [(k, v)]) hn' (by rw [← hd]; exact h')]
        simp

/-! ## Lemmas about the merging loop -/

theorem mergeGo_shrink {V : Type} (e : V → Bool) (l : List (String × V))
    (h : (mergeGo e l [] false).2 = true) :
    ((mergeGo e l [] false).1).length < l.length := by
  have hflag := mergeGo_flag e l [] false
  rw [h] at hflag
  have hpc : 0 < passCount e l := by
    by_contra hc
    simp [Nat.le_zero.mp (Nat.not_lt.mp hc)] at hflag
  have hlen := mergeGo_length e l [] false
  simp only [List.length_nil, Nat.zero_add] at hlen
  omega

theorem mergeLoop_congr {V : Type} (e : V → Bool) :
    ∀ (f1 f2 : Nat) (l : List (String × V)), l.length < f1 → l.length < f2 →
      mergeLoop e f1 l = mergeLoop e f2 l := by
  intro f1
  induction f1 with
  | zero => intro f2 l h1 _; omega
  | succ g ih =>
      intro f2 l h1 h2
      match f2 with
      | 0 => omega
      | f2' + 1 =>
          simp only [mergeLoop]
          rcases hm : mergeGo e l [] false with ⟨l', c⟩
          cases c with
          | false => rfl
          | true =>
              have hlt : l'.length < l.length := by
                have := mergeGo_shrink e l (by rw [hm])
                rwa [hm] at this
              exact ih f2' l' (by omega) (by omega)

theorem mergeEC_eq {V : Type} (e : V → Bool) (l : List (String × V)) :
    mergeEmptyConsecutive e l =
      (match mergeGo e l [] false with
       | (l', true) => mergeEmptyConsecutive e l'
       | (l', false) => l') := by
  unfold mergeEmptyConsecutive
  conv_lhs => rw [mergeLoop]
  rcases hm : mergeGo e l [] false with ⟨l', c⟩
  cases c with
  | false => rfl
  | true =>
      have hlt : l'.length < l.length := by
        have := mergeGo_shrink e l (by rw [hm])
        rwa [hm] at this
      exact mergeLoop_congr e l.length (l'.length + 1) l' (by omega) (by omega)

theorem mergeEC_keys_nodup {V : Type} (e : V → Bool) (l : List (String × V)) :
    (keysOf (mergeEmptyConsecutive e l)).Nodup := by
  have main : ∀ (n : Nat) (l : List (String × V)), l.length ≤ n →
      (keysOf (mergeEmptyConsecutive e l)).Nodup := by
    intro n
    induction n with
    | zero =>
        intro l hl
        match l, hl with
        | [], _ => simp [mergeEmptyConsecutive, mergeLoop, mergeGo, keysOf]
    | succ n ih =>
        intro l hl
        rw [mergeEC_eq]
        rcases hm : mergeGo e l [] false with ⟨l', c⟩
        cases c with
        | false =>
            have := mergeGo_keys_nodup e l [] false (by simp [keysOf])
            rwa [hm] at this
        | true =>
            have hlt : l'.length < l.length := by
              have := mergeGo_shrink e l (by rw [hm])
              rwa [hm] at this
            exact ih l' (by omega)
  exact main l.length l (Nat.le_refl _)

theorem mergeEC_idem {V : Type} (e : V → Bool) (l : List (String × V))
    (hn : (keysOf l).Nodup) :
    mergeEmptyConsecutive e (mergeEmptyConsecutive e l) = mergeEmptyConsecutive e l := by
  have main : ∀ (n : Nat) (l : List (String × V)), l.length ≤ n → (keysOf l).Nodup →
      mergeEmptyConsecutive e (mergeEmptyConsecutive e l) = mergeEmptyConsecutive e l := by
    intro n
    induction n with
    | zero =>
        intro l hl _
        match l, hl with
        | [], _ => rfl
    | succ n ih =>
        intro l hl hnd
        rcases hm : mergeGo e l [] false with ⟨l', c⟩
        cases c with
        | false =>
            have hid : l' = l := by
              have := mergeGo_no_change e l [] (by simpa [keysOf] using hnd) (by rw [hm])
              rw [hm] at this
              simpa using this
            have hfix : mergeEmptyConsecutive e l = l := by
              rw [mergeEC_eq, hm, hid]
            rw [hfix, hfix]
        | true =>
            have hlt : l'.length < l.length := by
              have := mergeGo_shrink e l (by rw [hm])
              rwa [hm] at this
            have hstep : mergeEmptyConsecutive e l = mergeEmptyConsecutive e l' := by
              rw [mergeEC_eq, hm]
            have hn' : (keysOf l').Nodup := by
              have := mergeGo_keys_nodup e l [] false (by simp [keysOf])
              rwa [hm] at this
            rw [hstep]
            exact ih l' (by omega) hn'
  exact main l.length l (Nat.le_refl _) hn

theorem mergeEC_snd {V : Type} (e : V → Bool) (l : List (String × V))
    (q : String × V) (h : q ∈ mergeEmptyConsecutive e l) : q.2 ∈ l.map Prod.snd := by
  have main : ∀ (n : Nat) (l : List (String × V)), l.length ≤ n →
      ∀ q : String × V, q ∈ mergeEmptyConsecutive e l → q.2 ∈ l.map Prod.snd := by
    intro n
    induction n with
    | zero =>
        intro l hl q hq
        match l, hl with
        | [], _ => simp [mergeEmptyConsecutive, mergeLoop, mergeGo] at hq
    | succ n ih =>
        intro l hl q hq
        rw [mergeEC_eq] at hq
        rcases hm : mergeGo e l [] false with ⟨l', c⟩
        rw [hm] at hq
        cases c with
        | false =>
            have := mergeGo_snd_mem e l [] false q (by rw [hm]; exact hq)
            simpa using this
        | true =>
            have hlt : l'.length < l.length := by
              have := mergeGo_shrink e l (by rw [hm])
              rwa [hm] at this
            have hq' := ih l' (by omega) q hq
            rcases List.mem_map.mp hq' with ⟨r, hr, hrq⟩
            have := mergeGo_snd_mem e l [] false r (by rw [hm]; exact hr)
            simp only [List.map_nil, List.not_mem_nil, false_or] at this
            rw [← hrq]
            exact this

  exact main l.length l (Nat.le_refl _) q h

theorem mergeLoopCount_congr {V : Type} (e : V → Bool) :
    ∀ (f1 f2 : Nat) (l : List (String × V)), l.length < f1 → l.length < f2 →
      mergeLoopCount e f1 l = mergeLoopCount e f2 l := by
  intro f1
  induction f1 with
  | zero => intro f2 l h1 _; omega
  | succ g ih =>
      intro f2 l h1 h2
      match f2 with
      | 0 => omega
      | f2' + 1 =>
          simp only [mergeLoopCount]
          rcases hm : mergeGo e l [] false with ⟨l', c⟩
          cases c with
          | false => rfl
          | true =>
              have hlt : l'.length < l.length := by
                have := mergeGo_shrink e l (by rw [hm])
                rwa [hm] at this
              dsimp only
              rw [ih f2' l' (by omega) (by omega)]

theorem mergeLoopCount_fst {V : Type} (e : V → Bool) (l : List (String × V)) :
    (mergeLoopCount e (l.length + 1) l).1 = mergeEmptyConsecutive e l := by
  have main : ∀ (n : Nat) (l : List (String × V)), l.length ≤ n →
      (mergeLoopCount e (l.length + 1) l).1 = mergeEmptyConsecutive e l := by
    intro n
    induction n with
    | zero =>
        intro l hl
        match l, hl with
        | [], _ => rfl
    | succ n ih =>
        intro l hl
        rw [mergeEC_eq]
        simp only [mergeLoopCount]
        rcases hm : mergeGo e l [] false with ⟨l', c⟩
        cases c with
        | false => rfl
        | true =>
            have hlt : l'.length < l.length := by
              have := mergeGo_shrink e l (by rw [hm])
              rwa [hm] at this
            have hc := mergeLoopCount_congr e l.length (l'.length + 1) l' (by omega) (by omega)
            simp only [hc, ih l' (by omega)]

  exact main l.length l (Nat.le_refl _)

theorem mergeLoopCount_bound {V : Type} (e : V → Bool) (l : List (String × V)) :
    (mergeLoopCount e (l.length + 1) l).2 ≤ l.length - 1 := by
  have main : ∀ (n : Nat) (l : List (String × V)), l.length ≤ n →
      (mergeLoopCount e (l.length + 1) l).2 ≤ l.length - 1 := by
    intro n
    induction n with
    | zero =>
        intro l hl
        match l, hl with
        | [], _ => simp [mergeLoopCount, mergeGo, passCount]
    | succ n ih =>
        intro l hl
        simp only [mergeLoopCount]
        rcases hm : mergeGo e l [] false with ⟨l', c⟩
        cases c with
        | false =>
            have hflag := mergeGo_flag e l [] false
            rw [hm] at hflag
            have hpc : passCount e l = 0 := by
              by_contra hc
              simp [Nat.pos_of_ne_zero hc] at hflag
            simp [hpc]
        | true =>
            have hne : l ≠ [] := by
              intro he
              subst he
              simp [mergeGo] at hm
            have hlt : l'.length < l.length := by
              have := mergeGo_shrink e l (by rw [hm])
              rwa [hm] at this
            have hpos : 1 ≤ l'.length := by
              have := mergeGo_length_pos e l [] false hne
              rwa [hm] at this
            have hpc : 0 < passCount e l := by
              have hflag := mergeGo_flag e l [] false
              rw [hm] at hflag
              by_contra hc
              simp [Nat.le_zero.mp (Nat.not_lt.mp hc)] at hflag
            have hlen := mergeGo_length e l [] false
            rw [hm] at hlen
            simp only [List.length_nil, Nat.zero_add] at hlen
            have hcg := mergeLoopCount_congr e l.length (l'.length + 1) l' (by omega) (by omega)
            dsimp only
            rw [hcg]
            have hb := ih l' (by omega)
            omega

  exact main l.length l (Nat.le_refl _)

theorem list_map_self {A : Type} (f : A → A) :
    ∀ (l : List A), (∀ x ∈ l, f x = x) → l.map f = l
  | [] => by simp
  | x :: t => by
      intro h
      simp only [List.map_cons]
      rw [h x (by simp), list_map_self f t (fun y hy => h y (by simp [hy]))]

theorem mergeEC_pair {V : Type} (e : V → Bool) (a : String) (v : V) (b : String) (w : V)
    (hv : e v = true) :
    mergeEmptyConsecutive e [(a, v), (b, w)] = [(a ++ " " ++ b, w)] := by
  rw [mergeEC_eq]
  simp only [mergeGo, hv, if_true, dinsert]
  rw [mergeEC_eq]
  simp [mergeGo, dinsert]

/-! ## Claim C2: the Empty-Header Merger is idempotent -/

/-- C2.  The Empty-Header Merger is a pure, deterministic function of
its input (it is a Lean function of the tree alone), and applying it
twice yields the same tree as applying it once.  The hypotheses state
that the input is a genuine Python dict-of-dicts: its keys, and the keys
of each inner mapping, carry no duplicates. -/
theorem mergeEmptyHeaders_idempotent_C2 (d : DrugTree)
    (hd : (keysOf d).Nodup) (hv : ∀ p ∈ d, (keysOf p.2).Nodup) :
    mergeEmptyHeaders (mergeEmptyHeaders d) = mergeEmptyHeaders d := by
  unfold mergeEmptyHeaders
  have hzk : (keysOf (d.map fun p => (p.1, mergeEmptyConsecutive h2Empty p.2))).Nodup := by
    simp only [keysOf, List.map_map]
    exact hd
  have hmap :
      (mergeEmptyConsecutive h1Empty
          (d.map fun p => (p.1, mergeEmptyConsecutive h2Empty p.2))).map
        (fun p => (p.1, mergeEmptyConsecutive h2Empty p.2))
        = mergeEmptyConsecutive h1Empty
            (d.map fun p => (p.1, mergeEmptyConsecutive h2Empty p.2)) := by
    apply list_map_self
    intro x hx
    have hsnd := mergeEC_snd h1Empty _ x hx
    rcases List.mem_map.mp hsnd with ⟨r, hr, hrx⟩
    rcases List.mem_map.mp hr with ⟨q, hq, rfl⟩
    have hqsnd : x.2 = mergeEmptyConsecutive h2Empty q.2 := hrx.symm
    have : mergeEmptyConsecutive h2Empty x.2 = x.2 := by
      rw [hqsnd]
      exact mergeEC_idem h2Empty q.2 (hv q hq)
    rw [this]
  rw [hmap]
  exact mergeEC_idem h1Empty _ hzk

/-- Witness for C2 at a concrete tree in which a merge actually
happens. -/
theorem mergeEmptyHeaders_idempotent_C2_witness :
    mergeEmptyHeaders (mergeEmptyHeaders [("A", []), ("B", [("t", ["x"])])])
      = mergeEmptyHeaders [("A", []), ("B", [("t", ["x"])])] :=
  mergeEmptyHeaders_idempotent_C2 [("A", []), ("B", [("t", ["x"])])]
    (by decide) (by decide)

/-! ## Claim C6: the shape of one merge -/

/-- C6.  First conjunct: at any level, an entry with an empty value
followed by another entry merges into a single entry keyed by the two
header texts joined with one space and carrying the following entry's
value.  Second conjunct: at the major-header level, where an entry is
empty iff it has no topics or only empty topics, two adjacent major
headers with the first one topic-less merge the same way (the surviving
value being the topic map of the second, itself H2-merged). -/
theorem merge_rule_C6 :
    (∀ (V : Type) (e : V → Bool) (a : String) (v : V) (b : String) (w : V),
        e v = true →
          mergeEmptyConsecutive e [(a, v), (b, w)] = [(a ++ " " ++ b, w)]) ∧
    (∀ (a b : String) (h2d : List (String × List String)),
        mergeEmptyHeaders [(a, []), (b, h2d)]
          = [(a ++ " " ++ b, mergeEmptyConsecutive h2Empty h2d)]) := by
  constructor
  · intro V e a v b w hv
    exact mergeEC_pair e a v b w hv
  · intro a b h2d
    unfold mergeEmptyHeaders
    simp only [List.map_cons, List.map_nil]
    have h0 : mergeEmptyConsecutive h2Empty ([] : List (String × List String)) = [] := rfl
    rw [h0]
    exact mergeEC_pair h1Empty a [] b (mergeEmptyConsecutive h2Empty h2d) rfl

/-- Witness for C6 with a concrete empty topic followed by a non-empty
one. -/
theorem merge_rule_C6_witness :
    mergeEmptyConsecutive h2Empty [("A", []), ("B", ["x"])] = [("A B", ["x"])] :=
  merge_rule_C6.1 (List String) h2Empty "A" [] "B" ["x"] rfl

/-! ## Claim C7: termination of the merger -/

/-- C7.  The merging loop of `_merge_empty_consecutive` halts on every
finite input: the instrumented loop `mergeLoopCount`, which counts the
merges of every pass and stops at the first pass that performs none,
computes exactly `mergeEmptyConsecutive` (first conjunct), and for a
level with `K` headers it performs at most `K - 1` merges in total
(second conjunct); each merge consumes two scanned entries and emits
one, so every changed pass strictly shrinks the key list. -/
theorem merger_termination_C7 {V : Type} (e : V → Bool) (l : List (String × V)) :
    (mergeLoopCount e (l.length + 1) l).1 = mergeEmptyConsecutive e l ∧
    (mergeLoopCount e (l.length + 1) l).2 ≤ l.length - 1 :=
  ⟨mergeLoopCount_fst e l, mergeLoopCount_bound e l⟩

/-! ## Claim C9: one basic card per topic header -/

theorem mkCardsH2_length (drug h1 : String) :
    ∀ (l : List (String × List (List Html))), (mkCardsH2 drug h1 l).length = l.length
  | [] => rfl
  | (h2, cs) :: rest => by
      simp only [mkCardsH2, List.length_cons]
      rw [mkCardsH2_length drug h1 rest]

theorem mkCardsH1_length (drug : String) :
    ∀ (t : List (String × List (String × List (List Html)))),
      (mkCardsH1 drug t).length = (t.map fun q => q.2.length).sum
  | [] => rfl
  | (h1, h2d) :: rest => by
      simp only [mkCardsH1, List.length_append, List.map_cons, List.sum_cons]
      rw [mkCardsH2_length drug h1 h2d, mkCardsH1_length drug rest]

theorem mkCards_length : ∀ (dc : DrugContent), (mkCards dc).length = totalTopicHeaders dc
  | [] => rfl
  | (drug, t) :: rest => by
      simp only [mkCards, List.length_append, totalTopicHeaders, List.map_cons,
        List.sum_cons]
      rw [mkCardsH1_length drug t, mkCards_length rest]
      simp [totalTopicHeaders]

/-- C9.  The card-building loop (common to all formats, and the note
list for `basic`) creates exactly one `CardRecord` per
(entry, major-header, topic-header) triple of the merged tree, in tree
order, so the number of records equals the total number of topic
headers. -/
theorem card_count_C9 (dc : DrugContent) : (mkCards dc).length = totalTopicHeaders dc :=
  mkCards_length dc

/-! ## Claim C3: degenerate topic-header candidates -/

/-- C3 (amended).  A block that matches the topic-header style (a first
span that is not white, carries the 10pt font marker, and has a bold
descendant) whose stripped bold text has length at most one is discarded
entirely: it neither opens a topic nor is attached as content, and the
scanner state is unchanged.  (The claim instead asserts such blocks are
reclassified as content; the source's `continue` at
src/stahl_ankifier.py line 396 and src/parse_pdf.py line 267 skips them
before the content branch is reached.) -/
theorem degenerate_header_C3_amended (h1s h2s : Option String) (d : DrugTree)
    (p sp b : Html)
    (hsp : findFirstL "span" (childrenOf p) = some sp)
    (hnotH1 : pyIn "color:#ffffff" (pyLower (attrGet (attrsOf sp) "style" "")) = false)
    (hfont : pyIn "font-size:10.0pt" (attrGet (attrsOf sp) "style" "") = true)
    (hb : findFirstL "b" (childrenOf p) = some b)
    (hdeg : (getTextH b).length ≤ 1) :
    pdpStep (h1s, h2s, d) p = (h1s, h2s, d) := by
  have hgt : ¬ ((getTextH b).length > 1) := by omega
  simp [pdpStep, hsp, hnotH1, hfont, hb, hgt]

/-- Witness for the amended C3: the concrete degenerate block leaves an
open (H1, H2) state untouched. -/
theorem degenerate_header_C3_amended_witness :
    pdpStep (some "PHARMACOLOGY", some "Mechanism of action",
        [("PHARMACOLOGY", [("Mechanism of action", [])])]) pDegBlock
      = (some "PHARMACOLOGY", some "Mechanism of action",
        [("PHARMACOLOGY", [("Mechanism of action", [])])]) :=
  degenerate_header_C3_amended (some "PHARMACOLOGY") (some "Mechanism of action")
    [("PHARMACOLOGY", [("Mechanism of action", [])])] pDegBlock
    (Html.elem "span" [("style", "font-size:10.0pt")]
      [Html.elem "b" [] [Html.text "B"], Html.text " trailing words"])
    (Html.elem "b" [] [Html.text "B"])
    rfl (by decide) (by decide) rfl (by decide)

/-- Counterexample for C3 as stated: with a major header and a topic
open, the degenerate block is not attached as content (the topic's
fragment list stays empty), whereas reclassification as content would
have stored its serialisation there. -/
theorem degenerate_header_C3_counterexample :
    parseDrugPages [pH1Block, pH2Block, pDegBlock]
      = [("PHARMACOLOGY", [("Mechanism of action", [])])] ∧
    parseDrugPages [pH1Block, pH2Block, pDegBlock]
      ≠ [("PHARMACOLOGY", [("Mechanism of action", [renderH pDegBlock])])] := by
  constructor
  · rfl
  · decide

/-! ## Claim C5: outline identifier extraction -/

/-- Counterexample for C5 as stated: no extraction in the repository
tries pattern (a) and then falls back to rule (b).  `stahl_ankifier.py`
skips the title `EXTRA_BUSPIRONE` although the claimed fallback accepts
its trailing token, and `parse_pdf.py` extracts `CD` from
`1.0_pp_5_10_AB_CD` although the claimed priority rule (a) yields
`AB_CD`. -/
theorem extract_cascade_C5_counterexample :
    extractDrugStahl "EXTRA_BUSPIRONE" = none ∧
    specExtractIdentifier "EXTRA_BUSPIRONE" = some "BUSPIRONE" ∧
    extractDrugParsePdf "1.0_pp_5_10_AB_CD" = some "CD" ∧
    specExtractIdentifier "1.0_pp_5_10_AB_CD" = some "AB_CD" :=
  ⟨rfl, rfl, rfl, rfl⟩

/-- C5 (amended).  Each script implements exactly one of the two rules,
with no cascade: `stahl_ankifier.py` tries only the explicit
`pp_<start>_<end>_<NAME>` pattern and skips every title without the
`_pp_` marker (first conjunct), while `parse_pdf.py` always applies the
trailing-uppercase-token rule alone (second conjunct, a refinement
against the rule as worded in the spec). -/
theorem extract_cascade_C5_amended :
    (∀ t : String, afterFirst "_pp_" t = none → extractDrugStahl t = none) ∧
    (∀ t : String, extractDrugParsePdf t = specPatternB t) := by
  constructor
  · intro t h
    simp [extractDrugStahl, h]
  · intro t
    rfl

/-- Witness for the amended C5: a title with an uppercase trailing token
but no `_pp_` marker is skipped by `stahl_ankifier.py`. -/
theorem extract_cascade_C5_amended_witness :
    extractDrugStahl "EXTRA_BUSPIRONE" = none :=
  extract_cascade_C5_amended.1 "EXTRA_BUSPIRONE" rfl

/-! ## Claim C8: the cloze marker gate -/

theorem clozeFinish_ok (original cand s : String)
    (h : clozeFinish original cand = Except.ok s) :
    pyIn "\x7b\x7bc" s = true ∧ pyIn "\x7d\x7d" s = true := by
  simp only [clozeFinish] at h
  split at h
  next hstart =>
    split at h
    next hend =>
      have hs : clozePost cand = s := by injection h
      rw [← hs]
      exact ⟨hstart, hend⟩
    next => exact absurd h (by simp)
  next => exact absurd h (by simp)

/-- C8.  First conjunct: every answer a cloze format accepts (an `ok`
result of the synthesis) contains at least one opening cloze marker and
at least one closing marker, because the source `assert`s exactly that
after all fallback splitting and post-processing.  Second conjunct: when
the markers are destroyed (here: an answer consisting of one line break,
whose empty cloze spans are all removed), the synthesis aborts with the
source's fatal message instead of skipping the record. -/
theorem cloze_marker_gate_C8 :
    (∀ (fmt : ClozeFormat) (soup : List Html) (s : String),
        clozeAnswer fmt soup = Except.ok s →
          pyIn "\x7b\x7bc" s = true ∧ pyIn "\x7d\x7d" s = true) ∧
    clozeAnswer ClozeFormat.onecloze [Html.elem "br" [] []]
      = Except.error ("Answer is missing start of cloze: \n<br/>") := by
  constructor
  · intro fmt soup s h
    match fmt with
    | ClozeFormat.singlecloze =>
        simp only [clozeAnswer] at h
        exact clozeFinish_ok _ _ _ h
    | ClozeFormat.onecloze =>
        simp only [clozeAnswer] at h
        split at h <;> exact clozeFinish_ok _ _ _ h
    | ClozeFormat.multicloze =>
        simp only [clozeAnswer] at h
        split at h
        · exact clozeFinish_ok _ _ _ h
        · exact absurd h (by simp)
  · rfl

/-- Witness for C8: a concrete accepted `singlecloze` answer, with the
marker conditions discharged by the theorem itself. -/
theorem cloze_marker_gate_C8_witness :
    pyIn "\x7b\x7bc" "\x7b\x7bc1::<br/>x<br/>\x7d\x7d" = true ∧
    pyIn "\x7d\x7d" "\x7b\x7bc1::<br/>x<br/>\x7d\x7d" = true :=
  cloze_marker_gate_C8.1 ClozeFormat.singlecloze [Html.text "x"] _ rfl

/-! ## Claim C10: no paragraph element survives to cloze synthesis -/

theorem findAllL_append (n : String) (a b : List Html) :
    findAllL n (a ++ b) = findAllL n a ++ findAllL n b := by
  induction a with
  | nil => simp [findAllL]
  | cons h t ih => simp [findAllL, ih]

mutual

theorem noP_removeH (h : Html) : findAllL "p" (removeParagraphsH h) = [] := by
  match h with
  | .text s => simp [removeParagraphsH, findAllL, findAllH]
  | .elem n a cs =>
      simp only [removeParagraphsH]
      split
      · rw [findAllL_append, noP_removeL cs]
        simp [findAllL, findAllH]
      · simp only [findAllL, findAllH, List.append_nil]
        rw [noP_removeL cs]
        simp_all

theorem noP_removeL (f : List Html) : findAllL "p" (removeParagraphsL f) = [] := by
  match f with
  | [] => simp [removeParagraphsL, findAllL]
  | h :: t =>
      simp only [removeParagraphsL]
      rw [findAllL_append, noP_removeH h, noP_removeL t]
      simp

end

theorem findAllL_dropLeadWS (n : String) (f : List Html) :
    findAllL n (dropLeadWS f) = findAllL n f := by
  induction f with
  | nil => rfl
  | cons x rest ih =>
      match x with
      | .text s =>
          simp only [dropLeadWS]
          split
          · rw [ih]; simp [findAllL, findAllH]
          · simp [findAllL, findAllH]
      | .elem m a cs => rfl

theorem noP_dropTrailWS (n : String) (f : List Html) (h : findAllL n f = []) :
    findAllL n (dropTrailWS f) = [] := by
  induction f with
  | nil => rfl
  | cons x rest ih =>
      simp only [findAllL, List.append_eq_nil] at h
      simp only [dropTrailWS]
      split
      next hr =>
        cases x with
        | text s =>
            dsimp only
            split <;> simp [findAllL, findAllH]
        | elem m a cs =>
            dsimp only
            simp [findAllL, h.1]
      next =>
        simp only [findAllL]
        rw [h.1, ih h.2]
        rfl

theorem noP_answerSoup (h2 : String) (cs : List (List Html)) :
    findAllL "p" (answerSoup h2 cs) = [] := by
  unfold answerSoup removeParagraphTags pyStripForest
  apply noP_dropTrailWS
  rw [findAllL_dropLeadWS]
  exact noP_removeL _

/-- C10.  Every answer reaching cloze synthesis has been through
`_remove_paragraph_tags`, so its parsed form contains no `p` element
(first conjunct); consequently the paragraph-wrapping branches of
`onecloze` and `multicloze` are unreachable, and both formats always
produce their answer through the line-break/newline fallback cascade
(second and third conjuncts). -/
theorem no_paragraph_cloze_C10 :
    (∀ (h2 : String) (cs : List (List Html)), findAllL "p" (answerSoup h2 cs) = []) ∧
    (∀ (h2 : String) (cs : List (List Html)),
        clozeAnswer ClozeFormat.onecloze (answerSoup h2 cs)
          = clozeFinish (renderL (answerSoup h2 cs))
              (clozeCascade false (cleanupReplaces (renderL (answerSoup h2 cs))))) ∧
    (∀ (h2 : String) (cs : List (List Html)),
        clozeAnswer ClozeFormat.multicloze (answerSoup h2 cs)
          = clozeFinish (renderL (answerSoup h2 cs))
              (clozeCascade true (cleanupReplaces (renderL (answerSoup h2 cs))))) := by
  refine ⟨noP_answerSoup, ?_, ?_⟩
  · intro h2 cs
    simp [clozeAnswer, noP_answerSoup h2 cs]
  · intro h2 cs
    simp [clozeAnswer, noP_answerSoup h2 cs]

/-! ## Claim C4: the `singlecloze` encoding -/

/-- Counterexample for C4 as stated: on the answer text
"Drowsiness; fatigue" the `singlecloze` encoding does not produce the
bare span claimed by the spec, because the source pads the span with a
line break after the opening marker and before the closing marker. -/
theorem singlecloze_C4_counterexample :
    clozeAnswer ClozeFormat.singlecloze [Html.text "Drowsiness; fatigue"]
      ≠ Except.ok "\x7b\x7bc1::Drowsiness; fatigue\x7d\x7d" := by
  intro h
  have heval : clozeAnswer ClozeFormat.singlecloze [Html.text "Drowsiness; fatigue"]
      = Except.ok "\x7b\x7bc1::<br/>Drowsiness; fatigue<br/>\x7d\x7d" := rfl
  rw [heval] at h
  exact absurd (Except.ok.inj h) (by decide)

/-- C4 (amended).  On the answer text "Drowsiness; fatigue" the
`singlecloze` encoding wraps the entire normalized content in one cloze
span numbered 1 with a line-break element inserted right after the
opening marker and right before the closing marker, and no stray empty
clozes. -/
theorem singlecloze_C4_amended :
    clozeAnswer ClozeFormat.singlecloze [Html.text "Drowsiness; fatigue"]
      = Except.ok "\x7b\x7bc1::<br/>Drowsiness; fatigue<br/>\x7d\x7d" := rfl

/-! ## Claim C1: multicloze numbering -/

/-- C1 (code bug).  A multicloze answer with two split units (two
bulleted paragraphs) numbers both units `c1`: the opening marker written
after unit `ibr` uses `str(ibr + 1)` instead of `str(ibr + 2)`, so the
produced numbering is 1, 1, 2, ... and the trailing empty spans are then
removed.  The claim (and the source's own docstring, which promises
sequential numbers c1, c2, ...) requires strictly increasing numbering
1, 2; no `c2` marker appears in the produced answer at all (second
conjunct). -/
theorem multicloze_numbering_C1_bug :
    clozeAnswer ClozeFormat.multicloze (answerSoup "Adverse Effects"
        [[Html.elem "p" [] [Html.text "• a"]], [Html.elem "p" [] [Html.text "• b"]]])
      = Except.ok "\x7b\x7bc1::a\x7d\x7d<br/>\x7b\x7bc1::b\x7d\x7d" ∧
    pyIn "\x7b\x7bc2" "\x7b\x7bc1::a\x7d\x7d<br/>\x7b\x7bc1::b\x7d\x7d" = false :=
  ⟨rfl, rfl⟩

end Stahl
